import Mathlib

/-!
Shallow embedding of the `worker` package: a cron-like scheduling layer on
top of an asynq-style queue engine, backed by a redis hash (the Store) and
an expiring redis lock (the Leader Lock).

Machine integers (Go `int64` / `int`) are modelled as `Int`; division on
them (`diff / 3`) is Go's truncated division, written `Int.tdiv`.
-/

namespace Worker

/-- `periodTask`: a recurring job definition as persisted in the Store
(JSON object with fields expr, group, uid, payload, next, processed,
maxRetry, timeout). -/
structure PeriodTask where
  expr : String
  name : String
  uid : String
  payload : String
  next : Int
  processed : Int
  maxRetry : Int
  timeout : Int
deriving DecidableEq

/-- Modelled from the spec: the `Options` struct (group-level defaults) is
defined outside the available sources; per spec sections 3, 4.3 and 6 it
carries the group name and the group defaults for maxRetry, timeout and
retention. -/
structure Options where
  group : String
  maxRetry : Int
  timeout : Int
  retention : Int
deriving DecidableEq

/-- Modelled from the spec: the `RunOptions` struct (per-registration
overrides) is defined outside the available sources; per spec section 3 it
carries uid, category, payload, cron expression, maxRetry, timeout,
retention. -/
structure RunOptions where
  uid : String
  category : String
  payload : String
  expr : String
  maxRetry : Int
  timeout : Int
  retention : Int
deriving DecidableEq

/-- Error values of the worker package (ErrUuidNil, ErrExprInvalid, the
cron parse error propagated by getNext, ErrSaveCron). -/
inductive Err where
  | uuidNil
  | exprInvalid
  | parseErr
  | saveCron
deriving DecidableEq

/-- Modelled from the spec: the cron evaluator is the external `cronexpr`
library (not part of the available sources). Per spec section 4.6 a
successfully parsed expression evaluated at a reference time yields an
occurrence strictly greater than the reference, and evaluation is a pure
function of (expression, reference). -/
structure CronEngine where
  parses : String → Bool
  next : String → Int → Int
  next_gt : ∀ e t, parses e = true → t < next e t

/-- `getNext(expr, timestamp)`: parse the expression; reference is the
given timestamp when it is positive, otherwise the current time `now`
(threaded explicitly); return the next occurrence after the reference. -/
def getNext (eng : CronEngine) (expr : String) (timestamp : Int) (now : Int) : Except Err Int :=
  if eng.parses expr then
    Except.ok (eng.next expr (if 0 < timestamp then timestamp else now))
  else
    Except.error Err.parseErr

/-- `next, _ := getNext(...)` in Go: the error is discarded and the
returned `next` is the zero value 0 on a parse failure. -/
def getNextOr0 (eng : CronEngine) (expr : String) (timestamp : Int) (now : Int) : Int :=
  match getNext eng expr timestamp now with
  | Except.ok n => n
  | Except.error _ => 0

/-- The Store: the redis hash `redisPeriodKey`, field = uid, value =
serialized PeriodTask, modelled as an association list. `HGET`. -/
def hget (s : List (String × PeriodTask)) (uid : String) : Option PeriodTask :=
  match s.find? (fun p => p.1 == uid) with
  | some p => some p.2
  | none => none

/-- `HSET`: upsert a field of the hash. -/
def hset (s : List (String × PeriodTask)) (uid : String) (t : PeriodTask) :
    List (String × PeriodTask) :=
  if s.any (fun p => p.1 == uid) then
    s.map (fun p => if p.1 == uid then (uid, t) else p)
  else
    s ++ [(uid, t)]

/-- `HDEL`: remove a field of the hash. -/
def hdel (s : List (String × PeriodTask)) (uid : String) : List (String × PeriodTask) :=
  s.filter (fun p => p.1 != uid)

/-- Well-formedness of the Store as maintained by the worker: hash fields
are distinct, and each record's `uid` field equals the hash field it is
stored under (registration writes `HSet(key, uid, task{Uid: uid})`). -/
def WFStore (s : List (String × PeriodTask)) : Prop :=
  (s.map (fun p => p.1)).Nodup ∧ ∀ p ∈ s, p.2.uid = p.1

/-- An asynq task: `NewTask(typename, payload, TaskID(id))`. -/
structure Task where
  typename : String
  payload : String
  id : String
deriving DecidableEq

/-- Submission options passed to the queue engine (`asynq.Option`),
amounts in seconds / unix timestamps. -/
inductive TaskOpt where
  | queue (q : String)
  | maxRetry (n : Int)
  | timeout (secs : Int)
  | retention (secs : Int)
  | processAt (ts : Int)
  | processIn (secs : Int)
deriving DecidableEq

/-- asynq applies options left to right, a later option of a kind
overriding an earlier one; the effective queue of an option list. -/
def effQueue (opts : List TaskOpt) : Option String :=
  opts.foldl (fun a o => match o with | TaskOpt.queue q => some q | _ => a) none

/-- Effective maxRetry of an option list (later option wins). -/
def effMaxRetry (opts : List TaskOpt) : Option Int :=
  opts.foldl (fun a o => match o with | TaskOpt.maxRetry n => some n | _ => a) none

/-- Effective timeout of an option list (later option wins). -/
def effTimeout (opts : List TaskOpt) : Option Int :=
  opts.foldl (fun a o => match o with | TaskOpt.timeout s => some s | _ => a) none

/-- Effective retention of an option list (later option wins); `none`
when no retention option is attached. -/
def effRetention (opts : List TaskOpt) : Option Int :=
  opts.foldl (fun a o => match o with | TaskOpt.retention s => some s | _ => a) none

/-- Effective process-at instant of an option list (later option wins). -/
def effProcessAt (opts : List TaskOpt) : Option Int :=
  opts.foldl (fun a o => match o with | TaskOpt.processAt t => some t | _ => a) none

/-- The option list the scan tick builds for one record, given the newly
computed next occurrence `next`: queue = group, group-default maxRetry,
the record's timeout, the record's maxRetry override when positive, a
retention of `diff/3` capped to 600 when `diff > 10`, and process-at the
record's current `next`. -/
def buildScanOpts (gops : Options) (item : PeriodTask) (next : Int) : List TaskOpt :=
  let base := [TaskOpt.queue gops.group, TaskOpt.maxRetry gops.maxRetry,
    TaskOpt.timeout item.timeout]
  let base1 := if 0 < item.maxRetry then base ++ [TaskOpt.maxRetry item.maxRetry] else base
  let diff := next - item.next
  let base2 :=
    if 10 < diff then
      base1 ++ [TaskOpt.retention (if 600 < diff then 600 else Int.tdiv diff 3)]
    else base1
  base2 ++ [TaskOpt.processAt item.next]

/-- The submission the scan tick builds for one record: the task
`NewTask(item.Name, item.Payload, TaskID(item.Uid))` with its options. -/
def scanRecordSub (eng : CronEngine) (gops : Options) (now : Int) (item : PeriodTask) :
    Task × List TaskOpt :=
  let next := getNextOr0 eng item.expr item.next now
  (⟨item.name, item.payload, item.uid⟩, buildScanOpts gops item next)

/-- The write of one record into the scan pipeline: performed only when
its enqueue succeeded, keyed by the record's uid field, with `next`
advanced to the freshly computed occurrence. -/
def scanWrite (eng : CronEngine) (now : Int) (enqOk : String → Bool)
    (acc : List (String × PeriodTask)) (p : String × PeriodTask) :
    List (String × PeriodTask) :=
  if enqOk p.2.uid then
    hset acc p.2.uid { p.2 with next := getNextOr0 eng p.2.expr p.2.next now }
  else acc

/-- One pass of the scan body over the Store snapshot: every record is
enqueued; for the records whose enqueue succeeded (the `enqOk` oracle,
keyed by uid) the record with `next` advanced is written back through the
pipeline, applied as a batch. Returns (new store, submissions in order). -/
def scanStep (eng : CronEngine) (gops : Options) (now : Int) (enqOk : String → Bool)
    (store : List (String × PeriodTask)) :
    List (String × PeriodTask) × List (Task × List TaskOpt) :=
  let subs := store.map (fun p => scanRecordSub eng gops now p.2)
  let store2 := store.foldl (scanWrite eng now enqOk) store
  (store2, subs)

/-- Cluster state shared by scheduler replicas: the Leader Lock (held by
replica id, or free), the Store, and the queue engine's received
submissions. -/
structure ClusterState where
  lock : Option Nat
  store : List (String × PeriodTask)
  queue : List (Task × List TaskOpt)
deriving DecidableEq

/-- Modelled from the spec: `lock.NxLock` lives outside the available
sources; per spec section 4.2 `TryAcquire` is non-blocking and succeeds
exactly when the lock is free. -/
def tryLock (r : Nat) (s : ClusterState) : ClusterState × Bool :=
  match s.lock with
  | some _ => (s, false)
  | none => ({ s with lock := some r }, true)

/-- Release of the Leader Lock by its holder. -/
def unlockOp (r : Nat) (s : ClusterState) : ClusterState :=
  if s.lock = some r then { s with lock := none } else s

/-- The scan critical section run by the lock holder: read the whole
hash, build and enqueue a submission per record, batch-write the advanced
records. -/
def scanCritical (eng : CronEngine) (gops : Options) (now : Int) (enqOk : String → Bool)
    (s : ClusterState) : ClusterState :=
  let r := scanStep eng gops now enqOk s.store
  { s with store := r.1, queue := s.queue ++ r.2 }

/-- `Worker.scan`: TryAcquire; on failure return at once (no reads, no
submissions, no writes); on success run the critical section and release. -/
def scanTick (eng : CronEngine) (gops : Options) (now : Int) (enqOk : String → Bool)
    (r : Nat) (s : ClusterState) : ClusterState :=
  let a := tryLock r s
  if a.2 then unlockOp r (scanCritical eng gops now enqOk a.1) else a.1

/-- `Worker.Cron`: validate the uid, compute the initial `next` anchored
at now (`getNext(expr, 0)`, any parse error becomes ErrExprInvalid), and
upsert the record under the uid. The Store write is modelled as
succeeding (a failed `HSet` yields ErrSaveCron, a store error per spec
section 7). Returns (new store, error). -/
def cronRun (eng : CronEngine) (now : Int) (ropts : RunOptions)
    (store : List (String × PeriodTask)) :
    List (String × PeriodTask) × Option Err :=
  if ropts.uid = "" then (store, some Err.uuidNil)
  else
    match getNext eng ropts.expr 0 now with
    | Except.error _ => (store, some Err.exprInvalid)
    | Except.ok next =>
        (hset store ropts.uid
          ⟨ropts.expr, ropts.category ++ ".cron", ropts.uid, ropts.payload, next, 0,
            ropts.maxRetry, ropts.timeout⟩, none)

/-- How `Once` schedules: `ProcessIn(in)`, else `ProcessAt(at)`, else
`ProcessIn(1)` when `now` is set, else no scheduling option. -/
inductive OnceWhen where
  | inDur (secs : Int)
  | atTime (ts : Int)
  | immediate
  | unspecified
deriving DecidableEq

/-- The option list `Worker.Once` builds: queue = group, group-default
maxRetry, the registration timeout, a maxRetry override when positive,
retention = registration value when positive else group default, and the
scheduling option. -/
def onceOpts (gops : Options) (ropts : RunOptions) (w : OnceWhen) : List TaskOpt :=
  let base := [TaskOpt.queue gops.group, TaskOpt.maxRetry gops.maxRetry,
    TaskOpt.timeout ropts.timeout]
  let base1 := if 0 < ropts.maxRetry then base ++ [TaskOpt.maxRetry ropts.maxRetry] else base
  let base2 :=
    if 0 < ropts.retention then base1 ++ [TaskOpt.retention ropts.retention]
    else base1 ++ [TaskOpt.retention gops.retention]
  match w with
  | OnceWhen.inDur s => base2 ++ [TaskOpt.processIn s]
  | OnceWhen.atTime t => base2 ++ [TaskOpt.processAt t]
  | OnceWhen.immediate => base2 ++ [TaskOpt.processIn 1]
  | OnceWhen.unspecified => base2

/-- `Worker.Once`: validate the uid, then enqueue
`NewTask(category+".once", payload, TaskID(uid))` with the options above
(enqueue modelled as succeeding). Returns (new queue, error). -/
def onceRun (gops : Options) (ropts : RunOptions) (w : OnceWhen)
    (queue : List (Task × List TaskOpt)) :
    List (Task × List TaskOpt) × Option Err :=
  if ropts.uid = "" then (queue, some Err.uuidNil)
  else
    (queue ++ [(⟨ropts.category ++ ".once", ropts.payload, ropts.uid⟩,
      onceOpts gops ropts w)], none)

/-- `Worker.processed`: under the (blocking) Leader Lock, read the record
for the uid; when the read reports the field missing (redis.Nil) do
nothing; otherwise write it back with `Processed` incremented. -/
def processedOp (store : List (String × PeriodTask)) (uid : String) :
    List (String × PeriodTask) :=
  match hget store uid with
  | none => store
  | some item => hset store uid { item with processed := item.processed + 1 }

/-- The end of `periodTaskHandler.ProcessTask`: whatever the handler /
callback outcome `handlerOk` was, `processed(uid)` runs. -/
def dispatchComplete (_handlerOk : Bool) (store : List (String × PeriodTask))
    (uid : String) : List (String × PeriodTask) :=
  processedOp store uid

/-- The payload envelope delivered to the handler / HTTP callback. -/
structure Payload where
  category : String
  uid : String
  payload : String
deriving DecidableEq

/-- `ProcessTask` builds the envelope from the fired task: Category =
`t.Type()`, Uid = the task id, Payload = the task payload. -/
def processTaskPayload (t : Task) : Payload :=
  ⟨t.typename, t.id, t.payload⟩

/-- An archived (terminally failed) job as listed by
`Inspector.ListArchivedTasks`: id, type name, LastFailedAt (unix
timestamp, `czero` for the zero time), Retried, MaxRetry. -/
structure ArchivedTaskInfo where
  id : String
  typename : String
  lastFailedAt : Int
  retried : Int
  maxRetry : Int
deriving DecidableEq

/-- The unix timestamp of Go's zero `time.Time` (0001-01-01 UTC), the
value carbon's `IsZero` singles out. -/
def czero : Int := -62135596800

/-- Go's `strings.HasSuffix`, on the character sequences of the two
strings. -/
def hasSuffix (s post : String) : Bool :=
  post.data.isSuffixOf s.data

/-- The per-job deletion decision of `Worker.clearArchived`: skip
(`continue`) when the last-failure time is set and the job has retries
left; otherwise for a `.cron` job look up its record (missing record:
leave the job alone) and require now to be strictly past last failure
plus a grace tier chosen from `diff = next occurrence − stored next`;
for any other job require now strictly past last failure plus 5 minutes.
Here: the periodic-job grace check, with `diff = getNextOr0 − stored
next` inlined. -/
def cronGraceOk (eng : CronEngine) (now : Int) (task : PeriodTask) (last : Int) : Bool :=
  if getNextOr0 eng task.expr task.next now - task.next ≤ 60 then
    decide (last + 300 < now)
  else if getNextOr0 eng task.expr task.next now - task.next ≤ 600 then
    decide (last + 1800 < now)
  else if getNextOr0 eng task.expr task.next now - task.next ≤ 3600 then
    decide (last + 7200 < now)
  else decide (last + 18000 < now)

/-- The per-job deletion decision of `Worker.clearArchived` (a job is
deleted from the queue engine exactly when this flag is true). -/
def clearFlag (eng : CronEngine) (now : Int) (store : List (String × PeriodTask))
    (job : ArchivedTaskInfo) : Bool :=
  if job.lastFailedAt != czero && job.retried < job.maxRetry then false
  else if hasSuffix job.typename ".cron" then
    match hget store job.id with
    | none => false
    | some task => cronGraceOk eng now task job.lastFailedAt
  else decide (job.lastFailedAt + 300 < now)

/-- One run of the Archive Reaper over a listed page: the ids it deletes
from the queue engine. -/
def clearArchivedDeleted (eng : CronEngine) (now : Int)
    (store : List (String × PeriodTask)) (jobs : List ArchivedTaskInfo) : List String :=
  (jobs.filter (fun j => clearFlag eng now store j)).map (fun j => j.id)

/-- A concrete cron engine used to instantiate witnesses: every non-empty
expression parses and the next occurrence is one second after the
reference. -/
def unitEngine : CronEngine where
  parses := fun e => e != ""
  next := fun _ t => t + 1
  next_gt := by intro e t _; exact lt_add_one t

/-- The retention formula as the spec words it: `min(diff/3, 600)` when
`diff > 10`, nothing otherwise. For comparison against the code's
`buildScanOpts`. -/
def specRetentionClaim (diff : Int) : Option Int :=
  if 10 < diff then some (min (Int.tdiv diff 3) 600) else none

/-- The timeout selection as the spec words it: the record's timeout when
the record sets one, else the group default. For comparison against the
code's `buildScanOpts`. -/
def specTimeoutClaim (item : PeriodTask) (gops : Options) : Int :=
  if item.timeout = 0 then gops.timeout else item.timeout

/-- The reference-time selection as the spec words it: the current time
when the given timestamp is zero/unset, otherwise the timestamp itself.
For comparison against the code's `getNext`. -/
def specReferenceClaim (timestamp now : Int) : Int :=
  if timestamp = 0 then now else timestamp

/-- The grace tier (seconds) `clearArchived` selects for a periodic job
from the cadence proxy `diff`. -/
def graceTier (diff : Int) : Int :=
  if diff ≤ 60 then 300
  else if diff ≤ 600 then 1800
  else if diff ≤ 3600 then 7200
  else 18000

/-- A concrete stored record used to instantiate witnesses and
counterexamples. -/
def sampleTask : PeriodTask := ⟨"*", "c.cron", "a", "p", 50, 0, 0, 0⟩

/-- Concrete group options used to instantiate witnesses and
counterexamples: group "g", default maxRetry 3, default timeout 30,
default retention 0. -/
def sampleOpts : Options := ⟨"g", 3, 30, 0⟩

theorem hget_hset_self (s : List (String × PeriodTask)) (u : String) (t : PeriodTask) :
    hget (hset s u t) u = some t := by
  unfold hget hset
  by_cases h : (s.any (fun p => p.1 == u)) = true
  · rw [if_pos h]
    induction s with
    | nil => simp at h
    | cons q qs ih =>
      by_cases hq : (q.1 == u) = true
      · simp [List.find?, hq]
      · simp only [List.any_cons, hq, Bool.false_or] at h
        simpa [List.find?, hq] using ih h
  · rw [if_neg h]
    have hnone : s.find? (fun p => p.1 == u) = none := by
      rw [List.find?_eq_none]
      intro p hp hc
      exact h (List.any_eq_true.mpr ⟨p, hp, hc⟩)
    simp [List.find?_append, hnone, List.find?]

theorem hget_hset_ne (s : List (String × PeriodTask)) (u v : String) (t : PeriodTask)
    (h : u ≠ v) : hget (hset s u t) v = hget s v := by
  unfold hget hset
  by_cases ha : (s.any (fun p => p.1 == u)) = true
  · rw [if_pos ha]
    clear ha
    induction s with
    | nil => rfl
    | cons q qs ih =>
      by_cases hq : (q.1 == u) = true
      · have hqv : (q.1 == v) = false := by
          rw [beq_iff_eq] at hq
          rw [beq_eq_false_iff_ne, hq]
          exact h
        have huv : (u == v) = false := beq_eq_false_iff_ne.mpr h
        simpa [List.find?, hq, hqv, huv] using ih
      · simp only [List.map_cons, if_neg hq]
        by_cases hqv : (q.1 == v) = true
        · simp [List.find?, hqv]
        · simpa [List.find?, hqv] using ih
  · rw [if_neg ha]
    have huv : (u == v) = false := beq_eq_false_iff_ne.mpr h
    simp [List.find?_append, List.find?, huv]

theorem scanWrite_fold_absent (eng : CronEngine) (now : Int) (enqOk : String → Bool)
    (entries acc : List (String × PeriodTask)) (u : String)
    (h : ∀ p ∈ entries, p.2.uid ≠ u) :
    hget (entries.foldl (scanWrite eng now enqOk) acc) u = hget acc u := by
  induction entries generalizing acc with
  | nil => rfl
  | cons q qs ih =>
    simp only [List.foldl_cons]
    rw [ih _ (fun p hp => h p (List.mem_cons_of_mem _ hp))]
    unfold scanWrite
    by_cases hq : enqOk q.2.uid = true
    · rw [if_pos hq, hget_hset_ne _ _ _ _ (h q (List.mem_cons_self q qs))]
    · rw [if_neg hq]

theorem scanWrite_fold_found (eng : CronEngine) (now : Int) (enqOk : String → Bool)
    (entries : List (String × PeriodTask)) (acc : List (String × PeriodTask))
    (u : String) (it : PeriodTask)
    (hnd : (entries.map (fun p => p.2.uid)).Nodup)
    (hmem : (u, it) ∈ entries) (huid : it.uid = u) :
    hget (entries.foldl (scanWrite eng now enqOk) acc) u =
      if enqOk u then some { it with next := getNextOr0 eng it.expr it.next now }
      else hget acc u := by
  induction entries generalizing acc with
  | nil => exact absurd hmem (List.not_mem_nil _)
  | cons q qs ih =>
    simp only [List.map_cons, List.nodup_cons] at hnd
    simp only [List.foldl_cons]
    rcases List.mem_cons.mp hmem with hq | hqs
    · have hq2 : q.2 = it := by rw [← hq]
      have habs : ∀ p ∈ qs, p.2.uid ≠ u := by
        intro p hp hc
        apply hnd.1
        rw [hq2, huid, ← hc]
        exact List.mem_map_of_mem (fun r => r.2.uid) hp
      rw [scanWrite_fold_absent eng now enqOk qs _ u habs]
      unfold scanWrite
      rw [hq2, huid]
      by_cases he : enqOk u = true
      · rw [if_pos he, if_pos he, hget_hset_self]
        simp [huid]
      · rw [if_neg he, if_neg he]
    · have hqu : q.2.uid ≠ u := by
        intro hc
        apply hnd.1
        rw [hc, ← huid]
        exact List.mem_map_of_mem (fun r => r.2.uid) hqs
      rw [ih _ hnd.2 hqs]
      by_cases he : enqOk u = true
      · rw [if_pos he, if_pos he]
      · rw [if_neg he, if_neg he]
        unfold scanWrite
        by_cases hw : enqOk q.2.uid = true
        · rw [if_pos hw, hget_hset_ne _ _ _ _ hqu]
        · rw [if_neg hw]

theorem hget_mem (s : List (String × PeriodTask)) (u : String) (it : PeriodTask)
    (h : hget s u = some it) : (u, it) ∈ s := by
  unfold hget at h
  cases hf : s.find? (fun p => p.1 == u) with
  | none => rw [hf] at h; exact absurd h (by simp)
  | some p =>
    rw [hf] at h
    have hp2 : p.2 = it := by simpa using h
    have hmem := List.mem_of_find?_eq_some hf
    have hp1 : p.1 = u := by
      have := List.find?_some hf
      simpa [beq_iff_eq] using this
    rw [← hp1, ← hp2]
    exact hmem

theorem hget_none_keys (s : List (String × PeriodTask)) (u : String)
    (h : hget s u = none) : ∀ p ∈ s, p.1 ≠ u := by
  unfold hget at h
  cases hf : s.find? (fun p => p.1 == u) with
  | none =>
    intro p hp hc
    have := List.find?_eq_none.mp hf p hp
    exact this (by simpa using hc)
  | some p => rw [hf] at h; exact absurd h (by simp)

theorem wf_uid_nodup (store : List (String × PeriodTask)) (hwf : WFStore store) :
    (store.map (fun p => p.2.uid)).Nodup := by
  have : store.map (fun p => p.2.uid) = store.map (fun p => p.1) :=
    List.map_congr_left (fun p hp => hwf.2 p hp)
  rw [this]
  exact hwf.1

/-- Lookup in the store produced by one scan pass: a present record is
advanced exactly when its enqueue succeeded, otherwise untouched. -/
theorem scanStep_lookup (eng : CronEngine) (gops : Options) (now : Int)
    (enqOk : String → Bool) (store : List (String × PeriodTask)) (u : String)
    (it : PeriodTask) (hwf : WFStore store) (h : hget store u = some it) :
    hget (scanStep eng gops now enqOk store).1 u =
      if enqOk u then some { it with next := getNextOr0 eng it.expr it.next now }
      else some it := by
  have hmem := hget_mem store u it h
  have huid : it.uid = u := hwf.2 (u, it) hmem
  unfold scanStep
  simp only
  rw [scanWrite_fold_found eng now enqOk store store u it (wf_uid_nodup store hwf) hmem huid, h]

/-- A uid with no record is not created by a scan pass. -/
theorem scanStep_lookup_none (eng : CronEngine) (gops : Options) (now : Int)
    (enqOk : String → Bool) (store : List (String × PeriodTask)) (u : String)
    (hwf : WFStore store) (h : hget store u = none) :
    hget (scanStep eng gops now enqOk store).1 u = none := by
  unfold scanStep
  simp only
  rw [scanWrite_fold_absent eng now enqOk store store u (fun p hp hc => by
    exact hget_none_keys store u h p hp (by rw [← hc]; exact (hwf.2 p hp).symm ▸ rfl)), h]

theorem scanStep_sub_mem (eng : CronEngine) (gops : Options) (now : Int)
    (enqOk : String → Bool) (store : List (String × PeriodTask)) (u : String)
    (it : PeriodTask) (h : hget store u = some it) :
    scanRecordSub eng gops now it ∈ (scanStep eng gops now enqOk store).2 := by
  have hmem := hget_mem store u it h
  unfold scanStep
  simp only
  exact List.mem_map_of_mem (fun p => scanRecordSub eng gops now p.2) hmem

/-- Number of submissions of one scan pass whose task id is `u`. -/
def subCount (subs : List (Task × List TaskOpt)) (u : String) : Nat :=
  subs.countP (fun sb => sb.1.id == u)

theorem scanStep_subCount (eng : CronEngine) (gops : Options) (now : Int)
    (enqOk : String → Bool) (store : List (String × PeriodTask)) (u : String)
    (hwf : WFStore store) :
    subCount (scanStep eng gops now enqOk store).2 u ≤ 1 := by
  unfold subCount scanStep
  simp only [List.countP_map]
  have h1 : store.countP ((fun sb : Task × List TaskOpt => sb.1.id == u) ∘
      (fun p => scanRecordSub eng gops now p.2)) = store.countP (fun p => p.1 == u) := by
    apply List.countP_congr
    intro p hp
    simp only [Function.comp, scanRecordSub]
    rw [hwf.2 p hp]
  rw [h1]
  have h2 : store.countP (fun p => p.1 == u) = (store.map (fun p => p.1)).count u := by
    rw [List.count_eq_countP, List.countP_map]
    rfl
  rw [h2]
  exact List.nodup_iff_count_le_one.mp hwf.1 u

theorem effProcessAt_buildScanOpts (gops : Options) (item : PeriodTask) (next : Int) :
    effProcessAt (buildScanOpts gops item next) = some item.next := by
  unfold buildScanOpts
  by_cases h1 : 0 < item.maxRetry <;> by_cases h2 : 10 < next - item.next <;>
    simp [h1, h2, effProcessAt, List.foldl_append]

theorem effQueue_buildScanOpts (gops : Options) (item : PeriodTask) (next : Int) :
    effQueue (buildScanOpts gops item next) = some gops.group := by
  unfold buildScanOpts
  by_cases h1 : 0 < item.maxRetry <;> by_cases h2 : 10 < next - item.next <;>
    simp [h1, h2, effQueue, List.foldl_append]

theorem effTimeout_buildScanOpts (gops : Options) (item : PeriodTask) (next : Int) :
    effTimeout (buildScanOpts gops item next) = some item.timeout := by
  unfold buildScanOpts
  by_cases h1 : 0 < item.maxRetry <;> by_cases h2 : 10 < next - item.next <;>
    simp [h1, h2, effTimeout, List.foldl_append]

theorem effMaxRetry_buildScanOpts (gops : Options) (item : PeriodTask) (next : Int) :
    effMaxRetry (buildScanOpts gops item next) =
      some (if 0 < item.maxRetry then item.maxRetry else gops.maxRetry) := by
  unfold buildScanOpts
  by_cases h1 : 0 < item.maxRetry <;> by_cases h2 : 10 < next - item.next <;>
    simp [h1, h2, effMaxRetry, List.foldl_append]

theorem effRetention_buildScanOpts (gops : Options) (item : PeriodTask) (next : Int) :
    effRetention (buildScanOpts gops item next) =
      (if 10 < next - item.next then
        some (if 600 < next - item.next then 600 else Int.tdiv (next - item.next) 3)
      else none) := by
  unfold buildScanOpts
  by_cases h1 : 0 < item.maxRetry <;> by_cases h2 : 10 < next - item.next <;>
    simp [h1, h2, effRetention, List.foldl_append]

theorem cronGraceOk_iff (eng : CronEngine) (now : Int) (task : PeriodTask) (last : Int) :
    cronGraceOk eng now task last = true ↔
      last + graceTier (getNextOr0 eng task.expr task.next now - task.next) < now := by
  unfold cronGraceOk graceTier
  by_cases d1 : getNextOr0 eng task.expr task.next now - task.next ≤ 60
  · rw [if_pos d1, if_pos d1, decide_eq_true_eq]
  · rw [if_neg d1, if_neg d1]
    by_cases d2 : getNextOr0 eng task.expr task.next now - task.next ≤ 600
    · rw [if_pos d2, if_pos d2, decide_eq_true_eq]
    · rw [if_neg d2, if_neg d2]
      by_cases d3 : getNextOr0 eng task.expr task.next now - task.next ≤ 3600
      · rw [if_pos d3, if_pos d3, decide_eq_true_eq]
      · rw [if_neg d3, if_neg d3, decide_eq_true_eq]

/-- One processed-count update can only keep or increase the stored
`processed` of any uid, and never deletes a record. -/
theorem processedOp_mono (store : List (String × PeriodTask)) (v u : String)
    (it : PeriodTask) (h : hget store u = some it) :
    ∃ it2, hget (processedOp store v) u = some it2 ∧
      it.processed ≤ it2.processed ∧ it2.next = it.next := by
  unfold processedOp
  cases hv : hget store v with
  | none => exact ⟨it, h, le_refl _, rfl⟩
  | some itv =>
    by_cases huv : v = u
    · subst huv
      rw [hv] at h
      cases h
      exact ⟨_, hget_hset_self store v _, by simp, rfl⟩
    · exact ⟨it, by rw [hget_hset_ne store v u _ huv]; exact h, le_refl _, rfl⟩

/-- Claim C1: with two scheduler replicas sharing one Store and Leader
Lock, a tick serializes through TryAcquire: the replica that finds the
lock free acquires it; a replica whose TryAcquire fails (the lock being
held) leaves the cluster state — Store, queue, lock — entirely unchanged
that tick; the completed tick releases the lock, appends exactly the
scan's submissions to the queue, and those submissions carry at most one
occurrence of each uid. -/
theorem scan_tick_exclusive (eng eng2 : CronEngine) (gops gops2 : Options)
    (now now2 : Int) (enq enq2 : String → Bool) (r1 r2 : Nat) (s : ClusterState)
    (hfree : s.lock = none) (hwf : WFStore s.store) :
    tryLock r1 s = ({ s with lock := some r1 }, true) ∧
    scanTick eng2 gops2 now2 enq2 r2 { s with lock := some r1 } =
      { s with lock := some r1 } ∧
    scanTick eng gops now enq r1 s =
      { lock := none, store := (scanStep eng gops now enq s.store).1,
        queue := s.queue ++ (scanStep eng gops now enq s.store).2 } ∧
    (∀ u, subCount (scanStep eng gops now enq s.store).2 u ≤ 1) := by
  refine ⟨?_, ?_, ?_, fun u => scanStep_subCount eng gops now enq s.store u hwf⟩
  · unfold tryLock
    rw [hfree]
  · unfold scanTick tryLock
    simp
  · unfold scanTick tryLock
    rw [hfree]
    simp only [if_pos]
    unfold scanCritical unlockOp
    simp

/-- Claim C1 witness: a concrete free-lock state with one record; the
blocked replica's tick is a no-op and the completed tick submits "a"
at most once. -/
theorem scan_tick_exclusive_witness :
    scanTick unitEngine sampleOpts 7 (fun _ => true) 1
        { lock := some 0, store := [("a", sampleTask)], queue := [] } =
      { lock := some 0, store := [("a", sampleTask)], queue := [] } ∧
    subCount (scanStep unitEngine sampleOpts 5 (fun _ => true) [("a", sampleTask)]).2 "a" ≤ 1 := by
  have h := scan_tick_exclusive unitEngine unitEngine sampleOpts sampleOpts 5 7
    (fun _ => true) (fun _ => true) 0 1
    { lock := none, store := [("a", sampleTask)], queue := [] } rfl ⟨by decide, by decide⟩
  exact ⟨h.2.1, h.2.2.2 "a"⟩

/-- Claim C2: for every record a scan tick processes: the submission is
scheduled to process at the record's stored `next`; the following
occurrence is computed anchored at that stored `next` (not at the
current time); on enqueue success the record's `next` is set to that
value and written back; on enqueue failure the record is unchanged and
the next tick submits the very same occurrence again. -/
theorem scan_record_advance (eng : CronEngine) (gops : Options) (now : Int)
    (enqOk : String → Bool) (store : List (String × PeriodTask)) (u : String)
    (it : PeriodTask) (hwf : WFStore store) (h : hget store u = some it)
    (hparse : eng.parses it.expr = true) (hpos : 0 < it.next) :
    effProcessAt (scanRecordSub eng gops now it).2 = some it.next ∧
    getNextOr0 eng it.expr it.next now = eng.next it.expr it.next ∧
    (enqOk u = true →
      hget (scanStep eng gops now enqOk store).1 u =
        some { it with next := eng.next it.expr it.next }) ∧
    (enqOk u = false →
      hget (scanStep eng gops now enqOk store).1 u = some it ∧
      ∀ now2 enq2, ∃ sub ∈
          (scanStep eng gops now2 enq2 (scanStep eng gops now enqOk store).1).2,
        sub.1.id = u ∧ effProcessAt sub.2 = some it.next) := by
  have hanchor : getNextOr0 eng it.expr it.next now = eng.next it.expr it.next := by
    unfold getNextOr0 getNext
    rw [if_pos hparse, if_pos hpos]
  refine ⟨?_, hanchor, ?_, ?_⟩
  · show effProcessAt (buildScanOpts gops it (getNextOr0 eng it.expr it.next now)) =
      some it.next
    exact effProcessAt_buildScanOpts gops it _
  · intro he
    rw [scanStep_lookup eng gops now enqOk store u it hwf h, if_pos he, hanchor]
  · intro he
    have hsame : hget (scanStep eng gops now enqOk store).1 u = some it := by
      rw [scanStep_lookup eng gops now enqOk store u it hwf h, if_neg (by simp [he])]
    refine ⟨hsame, fun now2 enq2 => ?_⟩
    refine ⟨scanRecordSub eng gops now2 it,
      scanStep_sub_mem eng gops now2 enq2 _ u it hsame, ?_, ?_⟩
    · show it.uid = u
      exact hwf.2 (u, it) (hget_mem store u it h)
    · exact effProcessAt_buildScanOpts gops it _

/-- Claim C2 witness: the concrete record "a" with stored next 50 under a
failing enqueue; its submission targets process-at 50. -/
theorem scan_record_advance_witness :
    effProcessAt (scanRecordSub unitEngine sampleOpts 5 sampleTask).2 = some 50 :=
  (scan_record_advance unitEngine sampleOpts 5 (fun _ => false) [("a", sampleTask)]
    "a" sampleTask ⟨by decide, by decide⟩ rfl rfl (by decide)).1

/-- Claim C3 counterexample: with diff = 900 the code attaches a
retention of 600 seconds (`diff > 600` forces exactly 600), while the
claimed `min(diff/3, 600)` is 300. -/
theorem scan_retention_counterexample :
    effRetention (buildScanOpts sampleOpts sampleTask 950) = some 600 ∧
    (950 : Int) - sampleTask.next = 900 ∧
    specRetentionClaim 900 = some 300 ∧
    some (600 : Int) ≠ some 300 := by decide

/-- Claim C3 amended: with diff = newly computed next occurrence minus
the record's current `next`, a submission carries a retention option iff
diff > 10 seconds, equal to diff/3 when diff ≤ 600 and to exactly 600
when diff > 600 (so min(diff/3, 600) only when diff ≤ 600 or
diff ≥ 1800); no retention option is attached when diff ≤ 10. -/
theorem scan_retention_amended (gops : Options) (item : PeriodTask) (next : Int) :
    (10 < next - item.next →
      effRetention (buildScanOpts gops item next) =
        some (if 600 < next - item.next then 600 else Int.tdiv (next - item.next) 3)) ∧
    (next - item.next ≤ 10 → effRetention (buildScanOpts gops item next) = none) := by
  constructor
  · intro h
    rw [effRetention_buildScanOpts, if_pos h]
  · intro h
    rw [effRetention_buildScanOpts, if_neg (by omega)]

/-- Claim C3 amended witness: diff = 12 yields retention 4 = 12/3; a
diff of 9 yields no retention option. -/
theorem scan_retention_amended_witness :
    effRetention (buildScanOpts sampleOpts sampleTask 62) =
      some (if (600 : Int) < 62 - sampleTask.next then 600
        else Int.tdiv (62 - sampleTask.next) 3) :=
  (scan_retention_amended sampleOpts sampleTask 62).1 (by decide)

/-- Claim C4 counterexample: a one-off job whose retried count equals
its maxRetry but which failed only 60 seconds ago is, per the claim,
eligible for deletion immediately; the code does not delete it — every
deletion additionally requires the grace window to have elapsed. -/
theorem clear_archived_counterexample :
    (⟨"j", "t.once", 940, 3, 3⟩ : ArchivedTaskInfo).retried =
      (⟨"j", "t.once", 940, 3, 3⟩ : ArchivedTaskInfo).maxRetry ∧
    clearFlag unitEngine 1000 [] ⟨"j", "t.once", 940, 3, 3⟩ = false ∧
    clearArchivedDeleted unitEngine 1000 [] [⟨"j", "t.once", 940, 3, 3⟩] = [] := by
  decide

/-- Claim C4 amended: the Archive Reaper deletes an archived job iff
(its last-failure time is unset, or its retried count has reached its
maxRetry) and additionally the grace window has strictly elapsed since
the last failure: 5 minutes for a non-periodic job; for a `.cron` job
with a present Store record the tier graceTier(diff) selected from
diff = freshly evaluated next occurrence − stored `next` (≤ 60s → 5 min,
≤ 600s → 30 min, ≤ 3600s → 2 h, otherwise 5 h); a `.cron` job whose
record is absent is never deleted. In particular a job with retries left
is skipped regardless of elapsed time, and reaching maxRetry alone never
suffices. -/
theorem clear_archived_amended (eng : CronEngine) (now : Int)
    (store : List (String × PeriodTask)) (job : ArchivedTaskInfo) :
    clearFlag eng now store job = true ↔
      ((job.lastFailedAt = czero ∨ job.maxRetry ≤ job.retried) ∧
        (if hasSuffix job.typename ".cron" then
          ∃ task, hget store job.id = some task ∧
            job.lastFailedAt +
              graceTier (getNextOr0 eng task.expr task.next now - task.next) < now
        else job.lastFailedAt + 300 < now)) := by
  unfold clearFlag graceTier
  by_cases h1 : (job.lastFailedAt != czero && decide (job.retried < job.maxRetry)) = true
  · rw [if_pos h1]
    simp only [bne_iff_ne, Bool.and_eq_true, decide_eq_true_eq] at h1
    constructor
    · intro hc
      simp at hc
    · rintro ⟨hz | hr, -⟩
      · exact absurd hz h1.1
      · exact absurd hr (not_le.mpr h1.2)
  · rw [if_neg h1]
    simp only [bne_iff_ne, Bool.and_eq_true, decide_eq_true_eq, not_and, ne_eq,
      Decidable.not_not, not_lt] at h1
    have hel : job.lastFailedAt = czero ∨ job.maxRetry ≤ job.retried := by
      by_cases hz : job.lastFailedAt = czero
      · exact Or.inl hz
      · exact Or.inr (h1 hz)
    by_cases h2 : hasSuffix job.typename ".cron" = true
    · rw [if_pos h2, if_pos h2]
      cases hg : hget store job.id with
      | none =>
        show false = true ↔ _
        constructor
        · intro hc
          simp at hc
        · rintro ⟨-, task, htask, -⟩
          simp at htask
      | some task =>
        show cronGraceOk eng now task job.lastFailedAt = true ↔ _
        rw [cronGraceOk_iff]
        constructor
        · intro hgrace
          exact ⟨hel, task, rfl, hgrace⟩
        · rintro ⟨-, task2, htask2, hgrace⟩
          injection htask2 with he
          subst he
          exact hgrace
    · rw [if_neg h2, if_neg h2]
      constructor
      · intro hflag
        exact ⟨hel, of_decide_eq_true hflag⟩
      · intro hc
        exact decide_eq_true hc.2

/-- Claim C5 counterexample: a record that sets no timeout (0) yields a
submission whose timeout option is 0 — the record's value passed through
unconditionally — not the group default 30 the claim predicts. -/
theorem scan_timeout_counterexample :
    effTimeout (buildScanOpts sampleOpts sampleTask 60) = some 0 ∧
    sampleTask.timeout = 0 ∧
    specTimeoutClaim sampleTask sampleOpts = 30 ∧
    some (0 : Int) ≠ some 30 := by decide

/-- Claim C5 amended: every submission built by the scan tick targets
queue = group and carries maxRetry = the record's maxRetry when positive
else the group default; the timeout option is always the record's
timeout, with no group-default fallback. -/
theorem scan_submission_options_amended (gops : Options) (item : PeriodTask) (next : Int) :
    effQueue (buildScanOpts gops item next) = some gops.group ∧
    effMaxRetry (buildScanOpts gops item next) =
      some (if 0 < item.maxRetry then item.maxRetry else gops.maxRetry) ∧
    effTimeout (buildScanOpts gops item next) = some item.timeout :=
  ⟨effQueue_buildScanOpts gops item next, effMaxRetry_buildScanOpts gops item next,
    effTimeout_buildScanOpts gops item next⟩

/-- Claim C6: after every dispatch attempt, handler success or failure
alike, the stored `processed` counter of the task's uid is incremented by
exactly one; when the record no longer exists nothing is written; and
across any sequence of dispatch completions the stored `processed` value
never decreases. -/
theorem dispatch_processed_counter (store : List (String × PeriodTask)) (u : String) :
    (∀ hr it, hget store u = some it →
      hget (dispatchComplete hr store u) u =
        some { it with processed := it.processed + 1 }) ∧
    (∀ hr, hget store u = none → dispatchComplete hr store u = store) ∧
    (∀ completions : List (Bool × String), ∀ it, hget store u = some it →
      ∃ it2, hget (completions.foldl
          (fun s c => dispatchComplete c.1 s c.2) store) u = some it2 ∧
        it.processed ≤ it2.processed) := by
  refine ⟨?_, ?_, ?_⟩
  · intro hr it h
    unfold dispatchComplete processedOp
    rw [h]
    exact hget_hset_self store u _
  · intro hr h
    unfold dispatchComplete processedOp
    rw [h]
  · intro completions
    induction completions generalizing store with
    | nil =>
      intro it h
      exact ⟨it, h, le_refl _⟩
    | cons c cs ih =>
      intro it h
      simp only [List.foldl_cons]
      obtain ⟨it2, h2, hle, -⟩ := processedOp_mono store c.2 u it h
      obtain ⟨it3, h3, hle3⟩ := ih (processedOp store c.2) it2 h2
      exact ⟨it3, h3, le_trans hle hle3⟩

/-- Claim C6 witness: one completed dispatch for uid "a" bumps its stored
processed count from 0 to 1. -/
theorem dispatch_processed_counter_witness :
    hget (dispatchComplete true [("a", sampleTask)] "a") "a" =
      some { sampleTask with processed := sampleTask.processed + 1 } :=
  (dispatch_processed_counter [("a", sampleTask)] "a").1 true sampleTask (by decide)

/-- Claim C7 counterexample: the Store holds uid "a" with next = 50;
re-registering "a" through Cron at now = 5 succeeds with no submission
and rewrites the stored `next` to 6 — backward in time. -/
theorem next_monotone_counterexample :
    (hget [("a", sampleTask)] "a").map PeriodTask.next = some 50 ∧
    (cronRun unitEngine 5 ⟨"a", "c", "p", "*", 0, 0, 0⟩ [("a", sampleTask)]).2 = none ∧
    (hget (cronRun unitEngine 5 ⟨"a", "c", "p", "*", 0, 0, 0⟩ [("a", sampleTask)]).1
      "a").map PeriodTask.next = some 6 ∧
    (6 : Int) < 50 := by decide

/-- Claim C7 amended: within the scan and the processed update, a stored
record's `next` only moves forward and only on a successful submission —
the scan advances it strictly (to the next occurrence after it) exactly
when the enqueue succeeded, leaves it unchanged on enqueue failure, and
the processed update never changes it; Cron (re-)registration however
overwrites `next` with the first occurrence after now, without any
submission, which can move an existing record's `next` backward. -/
theorem next_advance_amended (eng : CronEngine) (gops : Options) (now : Int)
    (enqOk : String → Bool) (store : List (String × PeriodTask)) (u v : String)
    (it : PeriodTask) (hwf : WFStore store) (h : hget store u = some it)
    (hparse : eng.parses it.expr = true) (hpos : 0 < it.next) :
    (enqOk u = true →
      hget (scanStep eng gops now enqOk store).1 u =
        some { it with next := eng.next it.expr it.next } ∧
      it.next < eng.next it.expr it.next) ∧
    (enqOk u = false → hget (scanStep eng gops now enqOk store).1 u = some it) ∧
    (∃ it2, hget (processedOp store v) u = some it2 ∧ it2.next = it.next) := by
  have hanchor : getNextOr0 eng it.expr it.next now = eng.next it.expr it.next := by
    unfold getNextOr0 getNext
    rw [if_pos hparse, if_pos hpos]
  refine ⟨?_, ?_, ?_⟩
  · intro he
    rw [scanStep_lookup eng gops now enqOk store u it hwf h, if_pos he, hanchor]
    exact ⟨rfl, eng.next_gt it.expr it.next hparse⟩
  · intro he
    rw [scanStep_lookup eng gops now enqOk store u it hwf h, if_neg (by simp [he])]
  · obtain ⟨it2, h2, -, hnext⟩ := processedOp_mono store v u it h
    exact ⟨it2, h2, hnext⟩

/-- Claim C7 amended witness: a processed update for some other uid "b"
leaves the stored `next` of "a" untouched. -/
theorem next_advance_amended_witness :
    ∃ it2, hget (processedOp [("a", sampleTask)] "b") "a" = some it2 ∧
      it2.next = sampleTask.next :=
  (next_advance_amended unitEngine sampleOpts 5 (fun _ => true) [("a", sampleTask)]
    "a" "b" sampleTask ⟨by decide, by decide⟩ (by decide) (by decide) (by decide)).2.2

/-- Claim C8 counterexample: at the negative (hence set, non-zero)
reference −1, the claim reads the reference as −1 itself, but getNext
anchors at the current time 100 and returns 101, not the 0 an anchoring
at −1 would give. -/
theorem getNext_reference_counterexample :
    getNext unitEngine "e" (-1) 100 = Except.ok 101 ∧
    specReferenceClaim (-1) 100 = -1 ∧
    unitEngine.next "e" (specReferenceClaim (-1) 100) = 0 ∧
    (101 : Int) ≠ 0 :=
  ⟨rfl, by decide, by decide, by decide⟩

/-- Claim C8 amended: for a successfully parsed expression, the reference
is the given timestamp when it is positive and the current time when it
is zero or negative (unset); the result is strictly greater than the
reference; and for a positive timestamp the result does not depend on
the current time (deterministic in (expression, timestamp)). -/
theorem getNext_amended (eng : CronEngine) (expr : String) (timestamp now : Int)
    (hparse : eng.parses expr = true) :
    (0 < timestamp →
      getNext eng expr timestamp now = Except.ok (eng.next expr timestamp) ∧
      timestamp < eng.next expr timestamp ∧
      ∀ now2, getNext eng expr timestamp now = getNext eng expr timestamp now2) ∧
    (timestamp ≤ 0 →
      getNext eng expr timestamp now = Except.ok (eng.next expr now) ∧
      now < eng.next expr now) := by
  constructor
  · intro ht
    refine ⟨?_, eng.next_gt expr timestamp hparse, ?_⟩
    · unfold getNext
      rw [if_pos hparse, if_pos ht]
    · intro now2
      simp [getNext, hparse, ht]
  · intro ht
    refine ⟨?_, eng.next_gt expr now hparse⟩
    unfold getNext
    rw [if_pos hparse, if_neg (by omega)]

/-- Claim C8 amended witness: reference 7 at current time 100 gives the
occurrence after 7, strictly greater, independent of the current time. -/
theorem getNext_amended_witness :
    getNext unitEngine "e" 7 100 = Except.ok (unitEngine.next "e" 7) ∧
    (7 : Int) < unitEngine.next "e" 7 ∧
    ∀ now2, getNext unitEngine "e" 7 100 = getNext unitEngine "e" 7 now2 :=
  (getNext_amended unitEngine "e" 7 100 (by decide)).1 (by decide)

/-- Claim C9: registration validates before any write — Cron and Once
with an empty uid fail synchronously with the uuid-nil error, and Cron
with an unparseable expression fails synchronously with the
invalid-expression error; in every such case the Store and the queue are
returned unchanged (no partial state). -/
theorem registration_validation (eng : CronEngine) (gops : Options) (now : Int)
    (ropts : RunOptions) (w : OnceWhen) (store : List (String × PeriodTask))
    (queue : List (Task × List TaskOpt)) :
    (ropts.uid = "" →
      cronRun eng now ropts store = (store, some Err.uuidNil) ∧
      onceRun gops ropts w queue = (queue, some Err.uuidNil)) ∧
    (ropts.uid ≠ "" → eng.parses ropts.expr = false →
      cronRun eng now ropts store = (store, some Err.exprInvalid)) := by
  constructor
  · intro h
    unfold cronRun onceRun
    rw [if_pos h, if_pos h]
    exact ⟨rfl, rfl⟩
  · intro h hp
    simp [cronRun, getNext, h, hp]

/-- Claim C9 witness: an empty uid rejects both registrations and leaves
an empty Store and queue empty. -/
theorem registration_validation_witness :
    cronRun unitEngine 5 ⟨"", "c", "p", "*", 0, 0, 0⟩ [] = ([], some Err.uuidNil) ∧
    onceRun sampleOpts ⟨"", "c", "p", "*", 0, 0, 0⟩ OnceWhen.immediate [] =
      ([], some Err.uuidNil) :=
  (registration_validation unitEngine sampleOpts 5 ⟨"", "c", "p", "*", 0, 0, 0⟩
    OnceWhen.immediate [] []).1 rfl

/-- Claim C10: the payload envelope's Category is the registered category
with the registration-kind suffix appended — ".cron" for Cron (stamped
into the stored record's name and carried into the scan's task type) and
".once" for Once — never the bare category; the envelope's Uid equals the
registration uid. -/
theorem payload_category_suffix (eng : CronEngine) (gops : Options) (now : Int)
    (ropts : RunOptions) (w : OnceWhen) (store : List (String × PeriodTask))
    (queue : List (Task × List TaskOpt))
    (hu : ropts.uid ≠ "") (hparse : eng.parses ropts.expr = true) :
    (∃ t, hget (cronRun eng now ropts store).1 ropts.uid = some t ∧
      processTaskPayload (scanRecordSub eng gops now t).1 =
        ⟨ropts.category ++ ".cron", ropts.uid, ropts.payload⟩) ∧
    (∃ tk opts, onceRun gops ropts w queue = (queue ++ [(tk, opts)], none) ∧
      processTaskPayload tk = ⟨ropts.category ++ ".once", ropts.uid, ropts.payload⟩) ∧
    ropts.category ++ ".cron" ≠ ropts.category ∧
    ropts.category ++ ".once" ≠ ropts.category := by
  refine ⟨?_, ?_, ?_, ?_⟩
  · have hc : cronRun eng now ropts store =
        (hset store ropts.uid ⟨ropts.expr, ropts.category ++ ".cron", ropts.uid,
          ropts.payload, eng.next ropts.expr now, 0, ropts.maxRetry, ropts.timeout⟩,
          none) := by
      simp [cronRun, getNext, hu, hparse]
    refine ⟨⟨ropts.expr, ropts.category ++ ".cron", ropts.uid, ropts.payload,
      eng.next ropts.expr now, 0, ropts.maxRetry, ropts.timeout⟩, ?_, rfl⟩
    rw [hc]
    exact hget_hset_self store ropts.uid _
  · refine ⟨⟨ropts.category ++ ".once", ropts.payload, ropts.uid⟩,
      onceOpts gops ropts w, ?_, rfl⟩
    unfold onceRun
    rw [if_neg hu]
  · intro h
    have hlen := congrArg String.length h
    have h5 : (".cron" : String).length = 5 := by decide
    rw [String.length_append, h5] at hlen
    omega
  · intro h
    have hlen := congrArg String.length h
    have h5 : (".once" : String).length = 5 := by decide
    rw [String.length_append, h5] at hlen
    omega

/-- Claim C10 witness: registering category "c" under uid "a" and reading
the stored record back, the envelope built for its fired task carries
Category "c.cron" and Uid "a". -/
theorem payload_category_suffix_witness :
    ∃ t, hget (cronRun unitEngine 5 ⟨"a", "c", "p", "*", 0, 0, 0⟩ []).1 "a" = some t ∧
      processTaskPayload (scanRecordSub unitEngine sampleOpts 5 t).1 =
        ⟨"c" ++ ".cron", "a", "p"⟩ :=
  (payload_category_suffix unitEngine sampleOpts 5 ⟨"a", "c", "p", "*", 0, 0, 0⟩
    OnceWhen.immediate [] [] (by decide) (by decide)).1

end Worker
